/- Verification of the christmas tree-page server (src/server.js).

   The file embeds the server's data model and request handlers as pure Lean
   functions: the JSON-file store (byUsername / byShortId), the short-id
   generator built on Math.random().toString(36).slice(2, 8), the
   POST /api/config/:username update handler (with the multer image filter)
   and the POST /api/delete-photo/:username handler.  JavaScript strings are
   embedded as Lean strings; the JS library operations used by the server
   (trim, toLowerCase, startsWith, Array.prototype.indexOf, splice) are
   modelled charwise so that every definition evaluates inside the kernel. -/
import Mathlib

namespace ChristmasServer

/-- Model of the JS whitespace test used by String.prototype.trim, on the
ASCII range (the server only ever trims route parameters and form fields). -/
def jsWhitespace (c : Char) : Bool :=
  c == ' ' || c == '\t' || c == '\n' || c == '\r' || c == '\x0b' || c == '\x0c'

/-- Model of String.prototype.trim: drop whitespace from both ends. -/
def jsTrim (s : String) : String :=
  ⟨((s.data.dropWhile jsWhitespace).reverse.dropWhile jsWhitespace).reverse⟩

/-- Lowercasing of a single character, as String.prototype.toLowerCase acts
on the ASCII letters the server's usernames are made of. -/
def jsLowerChar (c : Char) : Char :=
  if 'A' ≤ c && c ≤ 'Z' then Char.ofNat (c.toNat + 32) else c

/-- Model of String.prototype.toLowerCase. -/
def jsToLower (s : String) : String := ⟨s.data.map jsLowerChar⟩

/-- Model of String.prototype.startsWith. -/
def jsStartsWith (s p : String) : Bool := p.data.isPrefixOf s.data

/-- Username normalization used by every handler:
String(req.params.username or empty).trim().toLowerCase(). -/
def normUser (raw : String) : String := jsToLower (jsTrim raw)

/-- JSON values occurring in the server's response bodies. -/
inductive JVal where
  | s (v : String)
  | b (v : Bool)
  | arr (v : List String)
deriving DecidableEq

/-- An HTTP response: status code plus the JSON object body, field by field
in the order the handler writes them. -/
structure HttpResp where
  status : Nat
  fields : List (String × JVal)
deriving DecidableEq

/-- A JS object used as a string-keyed map, embedded as an association list
in key-insertion order (the order JSON.stringify would write back). -/
abbrev SMap (α : Type) := List (String × α)

/-- Assignment obj[k] = v on a JS object: overwrite the entry of an existing
key in place, otherwise append the new key at the end. -/
def mapSet {α : Type} : SMap α → String → α → SMap α
  | [], k, v => [(k, v)]
  | (k', v') :: rest, k, v =>
      if k' = k then (k, v) :: rest else (k', v') :: mapSet rest k v

/-- Keys of a JS object are pairwise distinct. -/
def NodupKeys {α : Type} (m : SMap α) : Prop := (m.map Prod.fst).Nodup

/-- A stored profile record, as written by the update handler.  photos is
none when the record has no photos array (the code guards every access with
Array.isArray); shortId is none when the field is absent. -/
structure Profile where
  username : String
  blessing : String
  photos : Option (List String)
  shortId : Option String
deriving DecidableEq

/-- The persisted store: data/users.json parsed, with its two objects. -/
structure Store where
  byUsername : SMap Profile
  byShortId : SMap String
deriving DecidableEq

/-- The store loadDb falls back to: empty byUsername and byShortId objects. -/
def emptyStore : Store := ⟨[], []⟩

/-- JS truthiness of a possibly-absent string (undefined and the empty
string are falsy, every other string is truthy). -/
def truthy : Option String → Bool
  | none => false
  | some s => !(s == "")

/-- Model of fs.readFileSync on the backing file: throws when the file is
missing, otherwise yields its contents. -/
def readFileSync : Option String → Except String String
  | none => Except.error "ENOENT"
  | some raw => Except.ok raw

/-- Embedding of loadDb: read the backing file and JSON.parse it, and on any
thrown error return the empty store.  The parse argument models JSON.parse,
with Except.error standing for a parse exception.  The function is total, so
no error ever escapes to the caller. -/
def loadDb (file : Option String) (parse : String → Except String Store) : Store :=
  match readFileSync file >>= parse with
  | Except.ok db => db
  | Except.error _ => emptyStore

/-- Digit characters of Number.prototype.toString(36): 0-9 then a-z. -/
def digitChar36 (d : Fin 36) : Char :=
  if d.val < 10 then Char.ofNat (48 + d.val) else Char.ofNat (87 + d.val)

/-- Character sequence of x.toString(36) for a JS number x in [0, 1), the
range of Math.random().  The outcome of the randomness source is captured by
the finite list of base-36 fraction digits the conversion prints: the result
is "0" when there are none (x = 0) and "0." followed by the digits
otherwise. -/
def jsToString36 (digits : List (Fin 36)) : List Char :=
  match digits with
  | [] => ['0']
  | ds => '0' :: '.' :: ds.map digitChar36

/-- Embedding of generateShortId:
Math.random().toString(36).slice(2, 8), with the randomness outcome given by
the base-36 fraction digits of the drawn number. -/
def generateShortId (digits : List (Fin 36)) : String :=
  ⟨((jsToString36 digits).drop 2).take 6⟩

/-- One multipart file part as multer presents it to the server: the
declared content type, and the stored location of the file relative to the
server root with forward slashes (what path.relative(ROOT_DIR, file.path)
followed by the separator join computes). -/
structure FilePart where
  mimetype : String
  relPath : String
deriving DecidableEq

/-- The multer fileFilter: accept exactly when
file.mimetype && file.mimetype.startsWith('image/'). -/
def fileAccepted (f : FilePart) : Bool :=
  !(f.mimetype == "") && jsStartsWith f.mimetype "image/"

/-- The web-servable path the update handler appends for an uploaded file:
a leading slash followed by the root-relative stored path. -/
def urlPath (f : FilePart) : String := "/" ++ f.relPath

/-- The do-while generation loop of the update handler: draw ids until one
is not truthy in byShortId.  The candidate list enumerates the successive
outputs of generateShortId; none models the loop running beyond them. -/
def genLoop (bs : SMap String) : List String → Option String
  | [] => none
  | c :: cs => if truthy (List.lookup c bs) then genLoop bs cs else some c

/-- Short-id choice of the update handler: keep existing.shortId when it is
truthy, otherwise run the generation loop. -/
def pickSid (st : Store) (username : String) (cands : List String) : Option String :=
  match List.lookup username st.byUsername with
  | some p => if truthy p.shortId then p.shortId else genLoop st.byShortId cands
  | none => genLoop st.byShortId cands

/-- The photos array the update handler starts from:
Array.isArray(existing.photos) ? [...existing.photos] : []. -/
def priorPhotos (st : Store) (username : String) : List String :=
  match List.lookup username st.byUsername with
  | some p => p.photos.getD []
  | none => []

/-- The two store writes of the update handler:
db.byUsername[username] = profile and db.byShortId[shortId] = username. -/
def writeProfile (st : Store) (username : String) (prof : Profile) (sid : String) : Store :=
  ⟨mapSet st.byUsername username prof, mapSet st.byShortId sid username⟩

/-- The 200 body of the update handler. -/
def okResp (username blessing : String) (photos : List String) (sid : String) : HttpResp :=
  ⟨200, [("ok", JVal.b true), ("username", JVal.s username),
         ("blessing", JVal.s blessing), ("photos", JVal.arr photos),
         ("shortId", JVal.s sid), ("shortUrl", JVal.s ("/u/" ++ sid))]⟩

/-- Core of the update handler after validation: choose the short id, build
the merged photos array and the new profile, and write both store entries. -/
def updateCore (st : Store) (username blessing : String)
    (newPaths cands : List String) : Option (HttpResp × Store) :=
  match pickSid st username cands with
  | none => none
  | some sid =>
      some (okResp username blessing (priorPhotos st username ++ newPaths) sid,
            writeProfile st username
              ⟨username, blessing, some (priorPhotos st username ++ newPaths), some sid⟩ sid)

/-- Embedding of the POST /api/config/:username handler, multer middleware
included.  A rejected file part aborts the request with the upload error
before the handler body runs; then the empty-username check; then the store
update.  The returned store is the one saveDb persists (unchanged on the
error paths, which return before saveDb). -/
def postConfig (st : Store) (usernameRaw blessingRaw : String)
    (files : List FilePart) (cands : List String) : Option (HttpResp × Store) :=
  if files.any (fun f => !fileAccepted f) then
    some (⟨400, [("error", JVal.s "Only image uploads are allowed")]⟩, st)
  else if normUser usernameRaw = "" then
    some (⟨400, [("error", JVal.s "Username is required")]⟩, st)
  else
    updateCore st (normUser usernameRaw) (jsTrim blessingRaw)
      (files.map urlPath) cands

/-- Model of Array.prototype.indexOf restricted to its use in the delete
handler: position of the first occurrence, none standing for -1. -/
def indexOfFirst (x : String) : List String → Option Nat
  | [] => none
  | a :: as => if a == x then some 0 else (indexOfFirst x as).map (· + 1)

/-- Embedding of the POST /api/delete-photo/:username handler up to the
store write (the subsequent best-effort file unlink touches only the disk,
never the store or the response).  photoUrl is the string field of the
request body, the empty string standing for an absent or falsy value. -/
def deletePhoto (st : Store) (usernameRaw photoUrl : String) : HttpResp × Store :=
  if normUser usernameRaw = "" then
    (⟨400, [("ok", JVal.b false), ("error", JVal.s "Username is required")]⟩, st)
  else if photoUrl = "" then
    (⟨400, [("ok", JVal.b false), ("error", JVal.s "Photo URL is required")]⟩, st)
  else
    match List.lookup (normUser usernameRaw) st.byUsername with
    | none => (⟨404, [("ok", JVal.b false), ("error", JVal.s "User not found")]⟩, st)
    | some user =>
        match user.photos with
        | none => (⟨400, [("ok", JVal.b false), ("error", JVal.s "No photos found")]⟩, st)
        | some photos =>
            match indexOfFirst photoUrl photos with
            | none =>
                (⟨404, [("ok", JVal.b false),
                        ("error", JVal.s "Photo not found in user data")]⟩, st)
            | some i =>
                (⟨200, [("ok", JVal.b true),
                        ("message", JVal.s "Photo deleted successfully")]⟩,
                 ⟨mapSet st.byUsername (normUser usernameRaw)
                    { user with photos := some (photos.eraseIdx i) },
                  st.byShortId⟩)

/-- Back-reference condition for one profile entry: when its shortId field
is present, byShortId maps that id to the profile's username key. -/
def backRef (bs : SMap String) (u : String) : Option String → Prop
  | none => True
  | some s => List.lookup s bs = some u

instance backRef.decide (bs : SMap String) (u : String) :
    (o : Option String) → Decidable (backRef bs u o)
  | none => Decidable.isTrue trivial
  | some s => inferInstanceAs (Decidable (List.lookup s bs = some u))

/-- Bidirectional consistency of a store: every profile entry with a
non-absent shortId is pointed back at by byShortId. -/
def bidir (st : Store) : Prop :=
  ∀ p ∈ st.byUsername, backRef st.byShortId p.1 p.2.shortId

/-- The store invariant maintained by the API: distinct keys in both
objects, no empty-string username recorded in byShortId, and bidirectional
consistency. -/
def StoreInv (st : Store) : Prop :=
  NodupKeys st.byUsername ∧ NodupKeys st.byShortId ∧
    (∀ q ∈ st.byShortId, q.2 ≠ "") ∧ bidir st

/-- Lowercase alphanumeric character: a decimal digit or a lowercase
letter, the alphabet of Number.prototype.toString(36). -/
def isLowerAlnum (c : Char) : Bool := c.isDigit || c.isLower

/-- A parse function on which JSON.parse always throws, modelling an
unparsable backing file. -/
def parseAlwaysFails : String → Except String Store := fun _ => Except.error "SyntaxError"

/-- Concrete store reached by one update request from the empty store. -/
def wStoreC1 : Store :=
  ⟨[("alice", ⟨"alice", "hi", some [], some "ab12cd"⟩)], [("ab12cd", "alice")]⟩

/-- Concrete store holding one profile with a photo and a short id. -/
def wStore2 : Store :=
  ⟨[("carol", ⟨"carol", "", some ["/uploads/photos/carol/1.jpg"], some "cc11dd"⟩)],
   [("cc11dd", "carol")]⟩

/-- The profile wStore2 holds for carol after one more photo upload. -/
def wProf2 : Profile :=
  ⟨"carol", "",
   some ["/uploads/photos/carol/1.jpg", "/uploads/photos/carol/2.png"], some "cc11dd"⟩

/-- The store produced from wStore2 by that upload. -/
def wStore2' : Store := ⟨[("carol", wProf2)], [("cc11dd", "carol")]⟩

/-- The response body of that upload. -/
def wResp2 : HttpResp :=
  okResp "carol" ""
    ["/uploads/photos/carol/1.jpg", "/uploads/photos/carol/2.png"] "cc11dd"

/-- Concrete store for the delete-photo scenarios: three distinct photos. -/
def wStore3 : Store :=
  ⟨[("dave", ⟨"dave", "hey", some ["/a.jpg", "/b.jpg", "/c.jpg"], some "dd22ee"⟩)],
   [("dd22ee", "dave")]⟩

/-- Concrete store whose photo list holds a duplicated path. -/
def wStore4 : Store :=
  ⟨[("erin", ⟨"erin", "", some ["/x.jpg", "/dup.jpg", "/y.jpg", "/dup.jpg"],
      some "ee33ff"⟩)],
   [("ee33ff", "erin")]⟩

/-- The stale profile of the bidirectionality counterexample: a record
under the empty username key, as a hand-written backing file can contain. -/
def ceOldProf : Profile := ⟨"", "", some [], some "q1q1q1"⟩

/-- Counterexample store: bidirectionally consistent, but byShortId records
the empty username, which the generation loop's truthiness test misreads
as the id being free. -/
def ceSt : Store := ⟨[("", ceOldProf)], [("q1q1q1", "")]⟩

/-- The store after the counterexample update reassigns the short id. -/
def ceSt' : Store :=
  ⟨[("", ceOldProf), ("bob", ⟨"bob", "", some [], some "q1q1q1"⟩)],
   [("q1q1q1", "bob")]⟩

/-- The response of the counterexample update. -/
def ceResp : HttpResp := okResp "bob" "" [] "q1q1q1"

instance NodupKeys.decide {α : Type} (m : SMap α) : Decidable (NodupKeys m) :=
  inferInstanceAs (Decidable (List.Nodup (m.map Prod.fst)))

instance bidir.decide (st : Store) : Decidable (bidir st) :=
  inferInstanceAs (Decidable (∀ p ∈ st.byUsername, backRef st.byShortId p.1 p.2.shortId))

instance StoreInv.decide (st : Store) : Decidable (StoreInv st) :=
  inferInstanceAs (Decidable (NodupKeys st.byUsername ∧ NodupKeys st.byShortId ∧
    (∀ q ∈ st.byShortId, q.2 ≠ "") ∧ bidir st))

/-- Store states reachable through the API, starting from the empty store
loadDb yields before any request has been saved: closed under the update
endpoint and the delete-photo endpoint (the two endpoints that call saveDb;
failed requests return their input store unchanged). -/
inductive Reachable : Store → Prop where
  | empty : Reachable emptyStore
  | update (st : Store) (uraw bl : String) (fs : List FilePart)
      (cs : List String) (r : HttpResp) (st' : Store) :
      Reachable st → postConfig st uraw bl fs cs = some (r, st') → Reachable st'
  | deletePh (st : Store) (uraw purl : String) (r : HttpResp) (st' : Store) :
      Reachable st → deletePhoto st uraw purl = (r, st') → Reachable st'

/- Lemmas about the JS object model. -/

theorem lookup_mapSet_self {α : Type} (m : SMap α) (k : String) (v : α) :
    List.lookup k (mapSet m k v) = some v := by
  induction m with
  | nil => simp [mapSet, List.lookup_cons]
  | cons q rest ih =>
      obtain ⟨a, b⟩ := q
      by_cases h : a = k
      · simp [mapSet, h, List.lookup_cons]
      · simp only [mapSet, if_neg h]
        rw [List.lookup_cons]
        simpa [beq_false_of_ne (Ne.symm h)] using ih

theorem lookup_mapSet_ne {α : Type} (m : SMap α) (k k' : String) (v : α)
    (h : k' ≠ k) : List.lookup k' (mapSet m k v) = List.lookup k' m := by
  induction m with
  | nil => simp [mapSet, List.lookup_cons, beq_false_of_ne h]
  | cons q rest ih =>
      obtain ⟨a, b⟩ := q
      by_cases hq : a = k
      · subst hq
        simp [mapSet, List.lookup_cons, beq_false_of_ne h]
      · by_cases hq' : k' = a
        · subst hq'
          simp [mapSet, hq, List.lookup_cons]
        · simp [mapSet, hq, List.lookup_cons, beq_false_of_ne hq', ih]

theorem keys_mapSet {α : Type} (m : SMap α) (k : String) (v : α) :
    (mapSet m k v).map Prod.fst =
      if (List.lookup k m).isSome then m.map Prod.fst else m.map Prod.fst ++ [k] := by
  induction m with
  | nil => simp [mapSet]
  | cons q rest ih =>
      obtain ⟨a, b⟩ := q
      by_cases h : a = k
      · subst h
        simp [mapSet, List.lookup_cons]
      · simp only [mapSet, if_neg h, List.map_cons, List.lookup_cons,
          beq_false_of_ne (Ne.symm h), ih]
        by_cases hs : (List.lookup k rest).isSome <;> simp [hs]

theorem mem_mapSet_weak {α : Type} (m : SMap α) (k : String) (v : α)
    (q : String × α) (h : q ∈ mapSet m k v) : q = (k, v) ∨ q ∈ m := by
  induction m with
  | nil => simpa [mapSet] using h
  | cons p rest ih =>
      by_cases hp : p.1 = k
      · simp only [mapSet, if_pos hp, List.mem_cons] at h
        rcases h with h | h
        · exact Or.inl h
        · exact Or.inr (List.mem_cons_of_mem _ h)
      · simp only [mapSet, if_neg hp, List.mem_cons] at h
        rcases h with h | h
        · exact Or.inr (h ▸ List.mem_cons_self _ _)
        · rcases ih h with h' | h'
          · exact Or.inl h'
          · exact Or.inr (List.mem_cons_of_mem _ h')

theorem not_mem_keys_of_lookup_eq_none {α : Type} (m : SMap α) (k : String)
    (h : List.lookup k m = none) : ∀ q ∈ m, q.1 ≠ k := by
  induction m with
  | nil => intro q hq; cases hq
  | cons p rest ih =>
      intro q hq
      rw [List.lookup_cons] at h
      rcases List.mem_cons.1 hq with rfl | hq'
      · intro hk
        simp [hk.symm] at h
      · by_cases hp : k = p.1
        · simp [hp] at h
        · exact ih (by simpa [beq_false_of_ne hp] using h) q hq'

theorem lookup_eq_none_of_not_mem_keys {α : Type} (m : SMap α) (k : String)
    (h : ∀ q ∈ m, q.1 ≠ k) : List.lookup k m = none := by
  induction m with
  | nil => simp
  | cons p rest ih =>
      rw [List.lookup_cons]
      have hp : p.1 ≠ k := h p (List.mem_cons_self _ _)
      simp only [beq_false_of_ne (Ne.symm hp)]
      exact ih fun q hq => h q (List.mem_cons_of_mem _ hq)

theorem mem_mapSet {α : Type} (m : SMap α) (k : String) (v : α)
    (q : String × α) (hnd : NodupKeys m) (h : q ∈ mapSet m k v) :
    q = (k, v) ∨ (q ∈ m ∧ q.1 ≠ k) := by
  induction m with
  | nil => exact Or.inl (by simpa [mapSet] using h)
  | cons p rest ih =>
      have hnd' : NodupKeys rest := (List.nodup_cons.1 hnd).2
      by_cases hp : p.1 = k
      · simp only [mapSet, if_pos hp, List.mem_cons] at h
        rcases h with h | h
        · exact Or.inl h
        · refine Or.inr ⟨List.mem_cons_of_mem _ h, ?_⟩
          intro hk
          have : q.1 ∈ rest.map Prod.fst := List.mem_map_of_mem Prod.fst h
          have hpk : p.1 ∉ rest.map Prod.fst := (List.nodup_cons.1 hnd).1
          exact hpk (by rwa [hp, ← hk])
      · simp only [mapSet, if_neg hp, List.mem_cons] at h
        rcases h with h | h
        · exact Or.inr ⟨h ▸ List.mem_cons_self _ _, h ▸ hp⟩
        · rcases ih hnd' h with h' | h'
          · exact Or.inl h'
          · exact Or.inr ⟨List.mem_cons_of_mem _ h'.1, h'.2⟩

theorem nodupKeys_mapSet {α : Type} (m : SMap α) (k : String) (v : α)
    (h : NodupKeys m) : NodupKeys (mapSet m k v) := by
  unfold NodupKeys
  rw [keys_mapSet]
  by_cases hs : (List.lookup k m).isSome
  · simpa [hs] using h
  · have hn : List.lookup k m = none := by
      cases hl : List.lookup k m
      · rfl
      · simp [hl] at hs
    have hk : k ∉ m.map Prod.fst := by
      intro hmem
      rcases List.mem_map.1 hmem with ⟨q, hq, hq1⟩
      exact not_mem_keys_of_lookup_eq_none m k hn q hq hq1
    simp only [hs, if_false]
    exact List.Nodup.append h (List.nodup_singleton k)
      (by simpa [List.disjoint_singleton] using hk)

theorem lookup_mem {α : Type} (m : SMap α) (k : String) (v : α)
    (h : List.lookup k m = some v) : (k, v) ∈ m := by
  induction m with
  | nil => simp at h
  | cons p rest ih =>
      rw [List.lookup_cons] at h
      by_cases hp : k = p.1
      · simp only [hp, beq_self_eq_true] at h
        cases h
        exact hp ▸ (List.mem_cons_self _ _)
      · exact List.mem_cons_of_mem _ (ih (by simpa [beq_false_of_ne hp] using h))

theorem mem_lookup {α : Type} (m : SMap α) (q : String × α)
    (hnd : NodupKeys m) (hq : q ∈ m) : List.lookup q.1 m = some q.2 := by
  induction m with
  | nil => cases hq
  | cons p rest ih =>
      obtain ⟨a, b⟩ := p
      rcases List.mem_cons.1 hq with rfl | hq'
      · simp [List.lookup_cons]
      · have hne : q.1 ≠ a := by
          intro hk
          have hmem : q.1 ∈ rest.map Prod.fst := List.mem_map_of_mem Prod.fst hq'
          rw [hk] at hmem
          exact (List.nodup_cons.1 hnd).1 hmem
        rw [List.lookup_cons]
        simpa [beq_false_of_ne hne] using ih (List.nodup_cons.1 hnd).2 hq'

theorem eq_of_mem_of_nodupKeys {α : Type} (m : SMap α) (p q : String × α)
    (hnd : NodupKeys m) (hp : p ∈ m) (hq : q ∈ m) (h : p.1 = q.1) : p = q := by
  have h1 := mem_lookup m p hnd hp
  have h2 := mem_lookup m q hnd hq
  rw [h] at h1
  rw [h1] at h2
  exact Prod.ext h (Option.some.inj h2)

theorem countP_keys_eq_one {α : Type} (m : SMap α) (k : String)
    (hnd : NodupKeys m) (hs : (List.lookup k m).isSome) :
    m.countP (fun q => q.1 == k) = 1 := by
  induction m with
  | nil => simp at hs
  | cons p rest ih =>
      have hnd' : NodupKeys rest := (List.nodup_cons.1 hnd).2
      by_cases hp : p.1 = k
      · have hz : rest.countP (fun q => q.1 == k) = 0 := by
          rw [List.countP_eq_zero]
          intro q hq
          have : q.1 ≠ p.1 := by
            intro hk
            exact (List.nodup_cons.1 hnd).1 (hk ▸ List.mem_map_of_mem Prod.fst hq)
          intro hb
          exact this ((eq_of_beq hb).trans hp.symm)
        simp [List.countP_cons, hz, hp]
      · have hs' : (List.lookup k rest).isSome := by
          rw [List.lookup_cons] at hs
          simpa [beq_false_of_ne (fun h => hp h.symm)] using hs
        simpa [List.countP_cons, beq_false_of_ne hp] using ih hnd' hs'

/- Lemmas about the handlers. -/

theorem indexOfFirst_eq_none (x : String) (l : List String) (h : x ∉ l) :
    indexOfFirst x l = none := by
  induction l with
  | nil => rfl
  | cons a as ih =>
      have hax : (a == x) = false :=
        beq_false_of_ne fun hh => h (hh ▸ List.mem_cons_self _ _)
      simp [indexOfFirst, hax, ih fun hm => h (List.mem_cons_of_mem _ hm)]

theorem indexOfFirst_append (x : String) (l₁ l₂ : List String) (h : x ∉ l₁) :
    indexOfFirst x (l₁ ++ x :: l₂) = some l₁.length := by
  induction l₁ with
  | nil => simp [indexOfFirst]
  | cons a as ih =>
      have hax : (a == x) = false :=
        beq_false_of_ne fun hh => h (hh ▸ List.mem_cons_self _ _)
      simp [indexOfFirst, hax, ih fun hm => h (List.mem_cons_of_mem _ hm)]

theorem eraseIdx_append (l₁ l₂ : List String) (x : String) :
    (l₁ ++ x :: l₂).eraseIdx l₁.length = l₁ ++ l₂ := by
  induction l₁ with
  | nil => rfl
  | cons a as ih => simpa [List.eraseIdx] using ih

theorem genLoop_not_truthy (bs : SMap String) (cs : List String) (sid : String)
    (h : genLoop bs cs = some sid) : truthy (List.lookup sid bs) = false := by
  induction cs with
  | nil => simp [genLoop] at h
  | cons c cs ih =>
      rw [genLoop] at h
      by_cases hc : truthy (List.lookup c bs) = true
      · exact ih (by simpa [hc] using h)
      · rw [if_neg hc] at h
        obtain rfl : c = sid := Option.some.inj h
        simpa using hc

theorem lookup_eq_none_of_not_truthy (bs : SMap String) (s : String)
    (hv : ∀ q ∈ bs, q.2 ≠ "") (h : truthy (List.lookup s bs) = false) :
    List.lookup s bs = none := by
  cases hl : List.lookup s bs with
  | none => rfl
  | some u =>
      rw [hl] at h
      have hu : u = "" := by simpa [truthy] using h
      exact absurd hu (hv (s, u) (lookup_mem bs s u hl))

theorem pickSid_spec (st : Store) (u : String) (cs : List String) (sid : String)
    (hbd : bidir st) (h : pickSid st u cs = some sid) :
    List.lookup sid st.byShortId = some u ∨
      truthy (List.lookup sid st.byShortId) = false := by
  rw [pickSid] at h
  cases hl : List.lookup u st.byUsername with
  | none =>
      rw [hl] at h
      exact Or.inr (genLoop_not_truthy _ _ _ h)
  | some p =>
      simp only [hl] at h
      by_cases hp : truthy p.shortId = true
      · rw [if_pos hp] at h
        left
        have hb := hbd (u, p) (lookup_mem st.byUsername u p hl)
        cases hps : p.shortId with
        | none => rw [hps] at h; cases h
        | some s =>
            rw [hps] at h
            obtain rfl : s = sid := Option.some.inj h
            rw [hps] at hb
            exact hb
      · rw [if_neg hp] at h
        exact Or.inr (genLoop_not_truthy _ _ _ h)

theorem writeProfile_inv (st : Store) (u : String) (prof : Profile) (sid : String)
    (hinv : StoreInv st) (hu : u ≠ "") (hps : prof.shortId = some sid)
    (hsid : List.lookup sid st.byShortId = some u ∨
      List.lookup sid st.byShortId = none) :
    StoreInv (writeProfile st u prof sid) := by
  obtain ⟨hnd1, hnd2, hval, hbd⟩ := hinv
  refine ⟨nodupKeys_mapSet _ _ _ hnd1, nodupKeys_mapSet _ _ _ hnd2, ?_, ?_⟩
  · intro q hq
    rcases mem_mapSet_weak st.byShortId sid u q hq with rfl | hq'
    · exact hu
    · exact hval q hq'
  · intro p hp
    rcases mem_mapSet st.byUsername u prof p hnd1 hp with rfl | ⟨hp', hne⟩
    · show backRef _ u prof.shortId
      rw [hps]
      show List.lookup sid (mapSet st.byShortId sid u) = some u
      exact lookup_mapSet_self _ _ _
    · have hb := hbd p hp'
      cases hps' : p.2.shortId with
      | none => exact trivial
      | some s' =>
          rw [hps'] at hb
          show List.lookup s' (mapSet st.byShortId sid u) = some p.1
          have hsne : s' ≠ sid := by
            intro hss
            subst hss
            rcases hsid with hcase | hcase
            · rw [hb] at hcase
              exact hne (Option.some.inj hcase)
            · rw [hb] at hcase
              cases hcase
          rw [lookup_mapSet_ne _ _ _ _ hsne]
          exact hb

theorem updateCore_ok (st : Store) (u bl : String) (ps cs : List String)
    (r : HttpResp) (st' : Store) (h : updateCore st u bl ps cs = some (r, st')) :
    ∃ sid, pickSid st u cs = some sid ∧
      r = okResp u bl (priorPhotos st u ++ ps) sid ∧
      st' = writeProfile st u
        ⟨u, bl, some (priorPhotos st u ++ ps), some sid⟩ sid := by
  rw [updateCore] at h
  cases hps : pickSid st u cs with
  | none => rw [hps] at h; cases h
  | some sid =>
      rw [hps] at h
      have h' := Option.some.inj h
      exact ⟨sid, rfl, (congrArg Prod.fst h').symm, (congrArg Prod.snd h').symm⟩

theorem updateCore_inv (st : Store) (u bl : String) (ps cs : List String)
    (r : HttpResp) (st' : Store) (hu : u ≠ "") (hinv : StoreInv st)
    (h : updateCore st u bl ps cs = some (r, st')) : StoreInv st' := by
  obtain ⟨sid, hpick, hr, hst⟩ := updateCore_ok st u bl ps cs r st' h
  subst hst
  have hsid : List.lookup sid st.byShortId = some u ∨
      List.lookup sid st.byShortId = none := by
    rcases pickSid_spec st u cs sid hinv.2.2.2 hpick with hc | hc
    · exact Or.inl hc
    · exact Or.inr (lookup_eq_none_of_not_truthy st.byShortId sid hinv.2.2.1 hc)
  exact writeProfile_inv st u _ sid hinv hu rfl hsid

theorem postConfig_cases (st : Store) (uraw bl : String) (fs : List FilePart)
    (cs : List String) (r : HttpResp) (st' : Store)
    (h : postConfig st uraw bl fs cs = some (r, st')) :
    (st' = st ∧ r.status = 400) ∨
      (normUser uraw ≠ "" ∧
        updateCore st (normUser uraw) (jsTrim bl) (fs.map urlPath) cs
          = some (r, st')) := by
  rw [postConfig] at h
  by_cases h1 : fs.any (fun f => !fileAccepted f) = true
  · rw [if_pos h1] at h
    have h' := Option.some.inj h
    exact Or.inl ⟨(congrArg Prod.snd h').symm,
      (congrArg (fun x => x.1.status) h').symm⟩
  · rw [if_neg h1] at h
    by_cases h2 : normUser uraw = ""
    · rw [if_pos h2] at h
      have h' := Option.some.inj h
      exact Or.inl ⟨(congrArg Prod.snd h').symm,
        (congrArg (fun x => x.1.status) h').symm⟩
    · rw [if_neg h2] at h
      exact Or.inr ⟨h2, h⟩

theorem postConfig_inv (st : Store) (uraw bl : String) (fs : List FilePart)
    (cs : List String) (r : HttpResp) (st' : Store)
    (hinv : StoreInv st) (h : postConfig st uraw bl fs cs = some (r, st')) :
    StoreInv st' := by
  rcases postConfig_cases st uraw bl fs cs r st' h with ⟨rfl, _⟩ | ⟨hu, hcore⟩
  · exact hinv
  · exact updateCore_inv st _ _ _ _ r st' hu hinv hcore

theorem deletePhoto_inv (st : Store) (uraw purl : String) (r : HttpResp)
    (st' : Store) (hinv : StoreInv st) (h : deletePhoto st uraw purl = (r, st')) :
    StoreInv st' := by
  obtain ⟨hnd1, hnd2, hval, hbd⟩ := hinv
  rw [deletePhoto] at h
  by_cases h1 : normUser uraw = ""
  · rw [if_pos h1] at h
    obtain rfl : st = st' := congrArg Prod.snd h
    exact ⟨hnd1, hnd2, hval, hbd⟩
  rw [if_neg h1] at h
  by_cases h2 : purl = ""
  · rw [if_pos h2] at h
    obtain rfl : st = st' := congrArg Prod.snd h
    exact ⟨hnd1, hnd2, hval, hbd⟩
  rw [if_neg h2] at h
  cases hl : List.lookup (normUser uraw) st.byUsername with
  | none =>
      rw [hl] at h
      obtain rfl : st = st' := congrArg Prod.snd h
      exact ⟨hnd1, hnd2, hval, hbd⟩
  | some user =>
      simp only [hl] at h
      cases hph : user.photos with
      | none =>
          simp only [hph] at h
          obtain rfl : st = st' := congrArg Prod.snd h
          exact ⟨hnd1, hnd2, hval, hbd⟩
      | some photos =>
          simp only [hph] at h
          cases hidx : indexOfFirst purl photos with
          | none =>
              simp only [hidx] at h
              obtain rfl : st = st' := congrArg Prod.snd h
              exact ⟨hnd1, hnd2, hval, hbd⟩
          | some i =>
              simp only [hidx] at h
              have hst := (congrArg Prod.snd h).symm
              subst hst
              refine ⟨nodupKeys_mapSet _ _ _ hnd1, hnd2, hval, ?_⟩
              intro p hp
              rcases mem_mapSet st.byUsername (normUser uraw) _ p hnd1 hp
                with rfl | ⟨hp', _⟩
              · show backRef _ (normUser uraw) user.shortId
                exact hbd (normUser uraw, user)
                  (lookup_mem st.byUsername (normUser uraw) user hl)
              · exact hbd p hp'

theorem emptyStore_inv : StoreInv emptyStore := by
  refine ⟨?_, ?_, ?_, ?_⟩ <;> simp [NodupKeys, emptyStore, bidir]

theorem reachable_inv (st : Store) (h : Reachable st) : StoreInv st := by
  induction h with
  | empty => exact emptyStore_inv
  | update st uraw bl fs cs r st' _ hstep ih =>
      exact postConfig_inv st uraw bl fs cs r st' ih hstep
  | deletePh st uraw purl r st' _ hstep ih =>
      exact deletePhoto_inv st uraw purl r st' ih hstep

/- Claim theorems. -/

/-- C1: in every store state reachable through the API, no two profile
entries hold the same non-empty shortId, and any id produced by the
generation loop of the update endpoint is not a key already present in
byShortId at the time of assignment. -/
theorem reachable_shortIds_unique_and_fresh (st : Store) (h : Reachable st) :
    (∀ p1 ∈ st.byUsername, ∀ p2 ∈ st.byUsername,
        p1.2.shortId = p2.2.shortId → truthy p1.2.shortId = true → p1 = p2) ∧
    (∀ cands sid, genLoop st.byShortId cands = some sid →
        List.lookup sid st.byShortId = none) := by
  obtain ⟨hnd1, hnd2, hval, hbd⟩ := reachable_inv st h
  constructor
  · intro p1 hp1 p2 hp2 heq htr
    cases hs : p1.2.shortId with
    | none => rw [hs] at htr; simp [truthy] at htr
    | some s =>
        have hs2 : p2.2.shortId = some s := heq ▸ hs
        have hb1 : List.lookup s st.byShortId = some p1.1 := by
          have hb := hbd p1 hp1
          rw [hs] at hb
          exact hb
        have hb2 : List.lookup s st.byShortId = some p2.1 := by
          have hb := hbd p2 hp2
          rw [hs2] at hb
          exact hb
        have hkey : p1.1 = p2.1 := by
          rw [hb1] at hb2
          exact Option.some.inj hb2
        exact eq_of_mem_of_nodupKeys st.byUsername p1 p2 hnd1 hp1 hp2 hkey
  · intro cands sid hgen
    exact lookup_eq_none_of_not_truthy st.byShortId sid hval
      (genLoop_not_truthy st.byShortId cands sid hgen)

/-- Witness for C1: at the concrete store reached by one update from the
empty store, an id produced by the loop is absent from byShortId. -/
theorem reachable_shortIds_unique_and_fresh_witness :
    List.lookup "zz99aa" wStoreC1.byShortId = none :=
  (reachable_shortIds_unique_and_fresh wStoreC1
      (Reachable.update emptyStore "Alice" "hi" [] ["ab12cd"]
        (okResp "alice" "hi" [] "ab12cd") wStoreC1 Reachable.empty (by decide))).2
    ["ab12cd", "zz99aa"] "zz99aa" (by decide)

theorem digitChar36_lowerAlnum : ∀ d : Fin 36, isLowerAlnum (digitChar36 d) = true := by
  decide

/-- C2 counterexample: for the Math.random outcome 0.5, whose base-36
expansion has the single fraction digit 18, toString(36) gives "0.i" and
slice(2, 8) gives the one-character id "i", so the generator does not
always produce exactly 6 characters. -/
theorem generateShortId_not_always_six :
    generateShortId [(18 : Fin 36)] = "i" ∧
      ¬(generateShortId [(18 : Fin 36)]).length = 6 := by decide

/-- C2 amended: every generated short id is a lowercase alphanumeric token
of length min 6 (number of base-36 fraction digits of the random number):
always at most 6 characters, and exactly 6 exactly when the expansion has
at least 6 fraction digits. -/
theorem generateShortId_amended (digits : List (Fin 36)) :
    (generateShortId digits).length = min 6 digits.length ∧
      ∀ c ∈ (generateShortId digits).data, isLowerAlnum c = true := by
  cases digits with
  | nil =>
      refine ⟨rfl, ?_⟩
      intro c hc
      simp [generateShortId, jsToString36] at hc
  | cons d ds =>
      constructor
      · show (((d :: ds).map digitChar36).take 6).length = _
        simp [List.length_take]
        omega
      · intro c hc
        have hc' : c ∈ ((d :: ds).map digitChar36).take 6 := hc
        rcases List.mem_map.1 (List.mem_of_mem_take hc') with ⟨dd, _, rfl⟩
        exact digitChar36_lowerAlnum dd

/-- C3: an update request carrying any file part whose declared content
type does not begin with image/ fails as a whole with HTTP 400 and body
with error "Only image uploads are allowed", and the store is returned
unchanged, so no photo path is appended to any profile. -/
theorem postConfig_rejects_non_image (st : Store) (uraw bl : String)
    (fs : List FilePart) (cs : List String) (f : FilePart)
    (hf : f ∈ fs) (hm : jsStartsWith f.mimetype "image/" = false) :
    postConfig st uraw bl fs cs =
      some (⟨400, [("error", JVal.s "Only image uploads are allowed")]⟩, st) := by
  have hacc : fileAccepted f = false := by
    rw [fileAccepted, hm]
    simp
  have hany : fs.any (fun g => !fileAccepted g) = true := by
    rw [List.any_eq_true]
    exact ⟨f, hf, by rw [hacc]; rfl⟩
  rw [postConfig, if_pos hany]

/-- Witness for C3: a text file part aborts a concrete request and leaves
the concrete store untouched. -/
theorem postConfig_rejects_non_image_witness :
    postConfig wStore2 "carol" "x"
        [⟨"text/plain", "uploads/photos/carol/a.txt"⟩] ["q1w2e3"] =
      some (⟨400, [("error", JVal.s "Only image uploads are allowed")]⟩, wStore2) :=
  postConfig_rejects_non_image wStore2 "carol" "x"
    [⟨"text/plain", "uploads/photos/carol/a.txt"⟩] ["q1w2e3"]
    ⟨"text/plain", "uploads/photos/carol/a.txt"⟩ (by decide) (by decide)

/-- C4: a successful update stores, for the normalized username, a profile
whose photo sequence is the prior profile's photo sequence followed by the
web-servable paths of the uploaded files, in order. -/
theorem postConfig_appends_photos (st st' : Store) (uraw bl : String)
    (fs : List FilePart) (cs : List String) (r : HttpResp) (p : Profile)
    (old : List String)
    (hprior : List.lookup (normUser uraw) st.byUsername = some p)
    (hold : p.photos = some old)
    (h : postConfig st uraw bl fs cs = some (r, st')) (hr : r.status = 200) :
    (List.lookup (normUser uraw) st'.byUsername).bind Profile.photos =
      some (old ++ fs.map urlPath) := by
  rcases postConfig_cases st uraw bl fs cs r st' h with ⟨_, h400⟩ | ⟨hu, hcore⟩
  · exfalso
    rw [hr] at h400
    exact absurd h400 (by decide)
  · obtain ⟨sid, hpick, hrok, hstw⟩ := updateCore_ok st _ _ _ _ r st' hcore
    subst hstw
    have hpp : priorPhotos st (normUser uraw) = old := by
      simp [priorPhotos, hprior, hold]
    simp only [writeProfile]
    rw [lookup_mapSet_self]
    show some (priorPhotos st (normUser uraw) ++ List.map urlPath fs) = _
    rw [hpp]

/-- Witness for C4 at concrete stores: the new path lands after the prior
photo. -/
theorem postConfig_appends_photos_witness :
    (List.lookup (normUser "carol") wStore2'.byUsername).bind Profile.photos =
      some (["/uploads/photos/carol/1.jpg"] ++
        List.map urlPath [⟨"image/png", "uploads/photos/carol/2.png"⟩]) :=
  postConfig_appends_photos wStore2 wStore2' "carol" ""
    [⟨"image/png", "uploads/photos/carol/2.png"⟩] ["zzz"] wResp2
    ⟨"carol", "", some ["/uploads/photos/carol/1.jpg"], some "cc11dd"⟩
    ["/uploads/photos/carol/1.jpg"] (by decide) (by decide) (by decide) (by decide)

/-- C5: deleting a photo path present exactly once removes exactly that
entry, the rest of the sequence keeping its relative order, and the store
write touches only that profile's photos. -/
theorem deletePhoto_removes_unique (st : Store) (uraw purl : String)
    (user : Profile) (l₁ l₂ : List String)
    (hu : normUser uraw ≠ "") (hp : purl ≠ "")
    (huser : List.lookup (normUser uraw) st.byUsername = some user)
    (hph : user.photos = some (l₁ ++ purl :: l₂))
    (h1 : purl ∉ l₁) (h2 : purl ∉ l₂) :
    deletePhoto st uraw purl =
      (⟨200, [("ok", JVal.b true), ("message", JVal.s "Photo deleted successfully")]⟩,
       ⟨mapSet st.byUsername (normUser uraw)
          { user with photos := some (l₁ ++ l₂) }, st.byShortId⟩) := by
  rw [deletePhoto, if_neg hu, if_neg hp]
  simp only [huser, hph, indexOfFirst_append purl l₁ l₂ h1, eraseIdx_append]

/-- Witness for C5 on a concrete store with three distinct photos. -/
theorem deletePhoto_removes_unique_witness :
    deletePhoto wStore3 "dave" "/b.jpg" =
      (⟨200, [("ok", JVal.b true), ("message", JVal.s "Photo deleted successfully")]⟩,
       ⟨mapSet wStore3.byUsername (normUser "dave")
          { username := "dave", blessing := "hey",
            photos := some (["/a.jpg"] ++ ["/c.jpg"]), shortId := some "dd22ee" },
        wStore3.byShortId⟩) :=
  deletePhoto_removes_unique wStore3 "dave" "/b.jpg"
    ⟨"dave", "hey", some (["/a.jpg"] ++ "/b.jpg" :: ["/c.jpg"]), some "dd22ee"⟩
    ["/a.jpg"] ["/c.jpg"] (by decide) (by decide) (by decide) (by decide)
    (by decide) (by decide)

/-- C6: deleting a photo path absent from the user's photo sequence yields
404 with ok false and error "Photo not found in user data", and the whole
store is returned unmodified. -/
theorem deletePhoto_not_found (st : Store) (uraw purl : String) (user : Profile)
    (l : List String) (hu : normUser uraw ≠ "") (hp : purl ≠ "")
    (huser : List.lookup (normUser uraw) st.byUsername = some user)
    (hph : user.photos = some l) (hmem : purl ∉ l) :
    deletePhoto st uraw purl =
      (⟨404, [("ok", JVal.b false), ("error", JVal.s "Photo not found in user data")]⟩,
       st) := by
  rw [deletePhoto, if_neg hu, if_neg hp]
  simp only [huser, hph, indexOfFirst_eq_none purl l hmem]

/-- Witness for C6: deleting an unknown path from a concrete store. -/
theorem deletePhoto_not_found_witness :
    deletePhoto wStore3 "dave" "/zz.jpg" =
      (⟨404, [("ok", JVal.b false), ("error", JVal.s "Photo not found in user data")]⟩,
       wStore3) :=
  deletePhoto_not_found wStore3 "dave" "/zz.jpg"
    ⟨"dave", "hey", some ["/a.jpg", "/b.jpg", "/c.jpg"], some "dd22ee"⟩
    ["/a.jpg", "/b.jpg", "/c.jpg"] (by decide) (by decide) (by decide) (by decide)
    (by decide)

/-- C7: when the stored profile already has a non-empty shortId, a
successful update keeps that exact id in the persisted profile and reports
it in the response body. -/
theorem shortId_idempotent (st st' : Store) (uraw bl : String)
    (fs : List FilePart) (cs : List String) (r : HttpResp) (p : Profile)
    (s : String)
    (hprior : List.lookup (normUser uraw) st.byUsername = some p)
    (hsid : p.shortId = some s) (hs : s ≠ "")
    (h : postConfig st uraw bl fs cs = some (r, st')) (hr : r.status = 200) :
    (List.lookup (normUser uraw) st'.byUsername).bind Profile.shortId = some s ∧
      ("shortId", JVal.s s) ∈ r.fields := by
  rcases postConfig_cases st uraw bl fs cs r st' h with ⟨_, h400⟩ | ⟨hu, hcore⟩
  · exfalso
    rw [hr] at h400
    exact absurd h400 (by decide)
  · obtain ⟨sid, hpick, hrok, hstw⟩ := updateCore_ok st _ _ _ _ r st' hcore
    have hss : sid = s := by
      rw [pickSid] at hpick
      simp only [hprior] at hpick
      rw [hsid] at hpick
      have htr : truthy (some s) = true := by simp [truthy, hs]
      rw [if_pos htr] at hpick
      exact (Option.some.inj hpick).symm
    subst hss
    subst hstw
    constructor
    · simp only [writeProfile]
      rw [lookup_mapSet_self]
      rfl
    · rw [hrok]
      simp [okResp]

/-- Witness for C7: updating carol, who already holds id cc11dd, keeps it
in the store and in the response. -/
theorem shortId_idempotent_witness :
    (List.lookup (normUser "carol") wStore2'.byUsername).bind Profile.shortId
        = some "cc11dd" ∧
      ("shortId", JVal.s "cc11dd") ∈ wResp2.fields :=
  shortId_idempotent wStore2 wStore2' "carol" ""
    [⟨"image/png", "uploads/photos/carol/2.png"⟩] ["zzz"] wResp2
    ⟨"carol", "", some ["/uploads/photos/carol/1.jpg"], some "cc11dd"⟩ "cc11dd"
    (by decide) (by decide) (by decide) (by decide) (by decide)

/-- C8: loadDb fails open: when the backing file is missing or its contents
make JSON.parse throw, the result is the empty store, and since loadDb is a
total function no error reaches its caller. -/
theorem loadDb_fails_open (file : Option String)
    (parse : String → Except String Store)
    (h : file = none ∨ ∃ raw e, file = some raw ∧ parse raw = Except.error e) :
    loadDb file parse = emptyStore := by
  rcases h with rfl | ⟨raw, e, rfl, hp⟩
  · rfl
  · have hbind : readFileSync (some raw) >>= parse = Except.error e := hp
    simp only [loadDb, hbind]

/-- Witness for C8: an unparsable backing file yields the empty store. -/
theorem loadDb_fails_open_witness :
    loadDb (some "not json") parseAlwaysFails = emptyStore :=
  loadDb_fails_open (some "not json") parseAlwaysFails
    (Or.inr ⟨"not json", "SyntaxError", rfl, rfl⟩)

/-- C9 amended: the update endpoint preserves bidirectional consistency
from any store satisfying it whose two objects have distinct keys and in
which every username recorded in byShortId is non-empty: afterwards every
profile entry with a non-absent shortId has exactly one byShortId entry
under that id, and it maps back to the profile's username. -/
theorem update_preserves_bidir (st st' : Store) (uraw bl : String)
    (fs : List FilePart) (cs : List String) (r : HttpResp)
    (hnd1 : NodupKeys st.byUsername) (hnd2 : NodupKeys st.byShortId)
    (hval : ∀ q ∈ st.byShortId, q.2 ≠ "") (hbd : bidir st)
    (h : postConfig st uraw bl fs cs = some (r, st')) (hr : r.status = 200) :
    ∀ p ∈ st'.byUsername, ∀ s, p.2.shortId = some s →
      st'.byShortId.countP (fun q => q.1 == s) = 1 ∧
        List.lookup s st'.byShortId = some p.1 := by
  obtain ⟨hnd1', hnd2', hval', hbd'⟩ :=
    postConfig_inv st uraw bl fs cs r st' ⟨hnd1, hnd2, hval, hbd⟩ h
  intro p hp s hs
  have hb := hbd' p hp
  rw [hs] at hb
  have hlook : List.lookup s st'.byShortId = some p.1 := hb
  refine ⟨countP_keys_eq_one st'.byShortId s hnd2' ?_, hlook⟩
  rw [hlook]
  rfl

/-- Witness for C9 at concrete stores: after carol's update her id has
exactly one reverse entry pointing back at her. -/
theorem update_preserves_bidir_witness :
    wStore2'.byShortId.countP (fun q => q.1 == "cc11dd") = 1 ∧
      List.lookup "cc11dd" wStore2'.byShortId = some ("carol", wProf2).1 :=
  update_preserves_bidir wStore2 wStore2' "carol" ""
    [⟨"image/png", "uploads/photos/carol/2.png"⟩] ["zzz"] wResp2
    (by decide) (by decide) (by decide) (by decide) (by decide) (by decide)
    ("carol", wProf2) (by decide) "cc11dd" (by decide)

/-- C9 counterexample: the claim as stated fails from a bidirectionally
consistent store that records the empty username in byShortId.  The update
for bob succeeds, the truthiness-based loop reuses the id q1q1q1 already
present as a key, and the stale profile's back-reference now points to
bob, not to the profile's own (empty) username. -/
theorem update_preserves_bidir_counterexample :
    bidir ceSt ∧ NodupKeys ceSt.byUsername ∧ NodupKeys ceSt.byShortId ∧
      postConfig ceSt "bob" "" [] ["q1q1q1"] = some (ceResp, ceSt') ∧
      ceResp.status = 200 ∧
      ("", ceOldProf) ∈ ceSt'.byUsername ∧ ceOldProf.shortId = some "q1q1q1" ∧
      ¬ List.lookup "q1q1q1" ceSt'.byShortId = some "" := by decide

/-- C10: when the requested path occurs more than once, the delete-photo
operation removes exactly the first occurrence: the prior entries and every
later occurrence, purl included, stay in place and in order. -/
theorem deletePhoto_removes_first (st : Store) (uraw purl : String)
    (user : Profile) (l₁ l₂ : List String)
    (hu : normUser uraw ≠ "") (hp : purl ≠ "")
    (huser : List.lookup (normUser uraw) st.byUsername = some user)
    (hph : user.photos = some (l₁ ++ purl :: l₂))
    (h1 : purl ∉ l₁) (h2 : purl ∈ l₂) :
    deletePhoto st uraw purl =
      (⟨200, [("ok", JVal.b true), ("message", JVal.s "Photo deleted successfully")]⟩,
       ⟨mapSet st.byUsername (normUser uraw)
          { user with photos := some (l₁ ++ l₂) }, st.byShortId⟩) := by
  rw [deletePhoto, if_neg hu, if_neg hp]
  simp only [huser, hph, indexOfFirst_append purl l₁ l₂ h1, eraseIdx_append]

/-- Witness for C10 on a concrete store with a duplicated path: only the
first copy goes away. -/
theorem deletePhoto_removes_first_witness :
    deletePhoto wStore4 "erin" "/dup.jpg" =
      (⟨200, [("ok", JVal.b true), ("message", JVal.s "Photo deleted successfully")]⟩,
       ⟨mapSet wStore4.byUsername (normUser "erin")
          { username := "erin", blessing := "",
            photos := some (["/x.jpg"] ++ ["/y.jpg", "/dup.jpg"]),
            shortId := some "ee33ff" },
        wStore4.byShortId⟩) :=
  deletePhoto_removes_first wStore4 "erin" "/dup.jpg"
    ⟨"erin", "", some (["/x.jpg"] ++ "/dup.jpg" :: ["/y.jpg", "/dup.jpg"]),
      some "ee33ff"⟩
    ["/x.jpg"] ["/y.jpg", "/dup.jpg"] (by decide) (by decide) (by decide)
    (by decide) (by decide) (by decide)

end ChristmasServer
